import Mathlib

/-!
Verification of the data-cleaning pipeline and filter engine of the road-accident
dashboard (`app.py`).

The Python source works on a pandas `DataFrame`; here a table is a `List` of
records whose cells are `Option`-typed (`none` models a pandas `NaN`/`NaT`/`NA`
cell).  Each helper of the source (`_snake_case`, `_clean_category`,
`_fix_severity`, the dedup/date/day-of-week steps of `load_and_clean`, the
row-subsetting part of `apply_filters`, and the case-2 aggregator `sev_counts`)
is translated into an executable Lean function.  String handling models the
ASCII fragment of Python's `str.strip` / `str.lower` / `str.capitalize` (all
data reaching these helpers in the application is ASCII).
-/

/-! ## ASCII character helpers -/

/-- ASCII alphanumeric test, the character class `[0-9a-zA-Z]` of the regex in
`_snake_case`. -/
def isAlnumAscii (c : Char) : Bool :=
  (48 ≤ c.toNat && c.toNat ≤ 57) || (97 ≤ c.toNat && c.toNat ≤ 122) ||
    (65 ≤ c.toNat && c.toNat ≤ 90)

/-- ASCII whitespace, the characters removed by Python's `str.strip()`:
tab, newline, vertical tab, form feed, carriage return (9–13) and space (32). -/
def isSpaceAscii (c : Char) : Bool :=
  c.toNat = 32 || (9 ≤ c.toNat && c.toNat ≤ 13)

/-- ASCII lower-casing of one character, as done by Python's `str.lower()` on
ASCII input. -/
def lowerAscii (c : Char) : Char :=
  if 65 ≤ c.toNat ∧ c.toNat ≤ 90 then Char.ofNat (c.toNat + 32) else c

/-- ASCII upper-casing of one character, used by Python's `str.capitalize()` on
the first character. -/
def upperAscii (c : Char) : Char :=
  if 97 ≤ c.toNat ∧ c.toNat ≤ 122 then Char.ofNat (c.toNat - 32) else c

/-- Remove leading and trailing ASCII whitespace from a character list
(Python `str.strip()`). -/
def trimList (l : List Char) : List Char :=
  ((l.dropWhile isSpaceAscii).reverse.dropWhile isSpaceAscii).reverse

/-- Python `str.strip()` on a string. -/
def stripStr (s : String) : String :=
  String.mk (trimList s.data)

/-- Python `str.lower()` on a string (ASCII fragment). -/
def lowerStr (s : String) : String :=
  String.mk (s.data.map lowerAscii)

/-- Python `str.capitalize()`: first character upper-cased, the rest
lower-cased (ASCII fragment). -/
def capitalizeAscii (s : String) : String :=
  match s.data with
  | [] => ""
  | c :: cs => String.mk (upperAscii c :: cs.map lowerAscii)

/-- Does `hay` start with `needle`? Helper for substring search. -/
def startsWithList : List Char → List Char → Bool
  | _, [] => true
  | [], _ :: _ => false
  | a :: as, b :: bs => a = b && startsWithList as bs

/-- Does `hay` contain `needle` as a contiguous substring?  Models Python's
`needle in hay`. -/
def hasSub : List Char → List Char → Bool
  | [], needle => needle.isEmpty
  | a :: as, needle => startsWithList (a :: as) needle || hasSub as needle

/-- Python's `needle in hay` on strings. -/
def containsSub (hay needle : String) : Bool :=
  hasSub hay.data needle.data

/-! ## `_snake_case` (schema normalizer) -/

/-- One pass of `re.sub(r"[^0-9a-zA-Z]+", "_", name)`: every maximal run of
non-alphanumeric characters becomes a single underscore.  The boolean argument
records whether the previous character was part of a (already replaced)
non-alphanumeric run. -/
def collapseRuns : Bool → List Char → List Char
  | _, [] => []
  | inRun, c :: cs =>
    if isAlnumAscii c then c :: collapseRuns false cs
    else if inRun then collapseRuns true cs
    else '_' :: collapseRuns true cs

/-- `re.sub(r"_+", "_", name)`: collapse runs of underscores to one underscore.
The boolean argument records whether the previous character was an
underscore. -/
def squashUnd : Bool → List Char → List Char
  | _, [] => []
  | prev, c :: cs =>
    if c = '_' then
      if prev then squashUnd true cs else '_' :: squashUnd true cs
    else c :: squashUnd false cs

/-- `name.strip("_")`: remove leading and trailing underscores. -/
def stripUnd (l : List Char) : List Char :=
  ((l.dropWhile fun c => c = '_').reverse.dropWhile fun c => c = '_').reverse

/-- The `_snake_case` helper on character lists: strip whitespace, replace
non-alphanumeric runs by `_`, collapse `_` runs, strip `_`, lower-case. -/
def snakeList (l : List Char) : List Char :=
  (stripUnd (squashUnd false (collapseRuns false (trimList l)))).map lowerAscii

/-- `_snake_case` of the source: canonicalise one raw column header. -/
def snake_case (s : String) : String :=
  String.mk (snakeList s.data)

/-! ## `_clean_category` and `_fix_severity` -/

/-- `_clean_category` of the source.  `none` models a `NaN` cell
(`pd.isna(x)`); other cells reach the helper as strings. -/
def clean_category (x : Option String) : String :=
  match x with
  | none => "Unknown"
  | some v =>
    let s := stripStr v
    if s = "" ∨ lowerStr s ∈ (["nan", "none", "null"] : List String) then "Unknown"
    else if containsSub (lowerStr s) "missing" ∨ containsSub (lowerStr s) "out of range" then
      "Unknown"
    else s

/-- `_fix_severity` of the source. -/
def fix_severity (x : Option String) : String :=
  match x with
  | none => "Unknown"
  | some v =>
    let s := stripStr v
    let sLow := lowerStr s
    if sLow = "fetal" then "Fatal"
    else
      let s2 := capitalizeAscii sLow
      if s2 ∈ (["Fatal", "Serious", "Slight"] : List String) then s2 else "Unknown"

/-- `DOW_ORDER` of the source: the ordered 7-day categorical domain. -/
def DOW_ORDER : List String :=
  ["Monday", "Tuesday", "Wednesday", "Thursday", "Friday", "Saturday", "Sunday"]

/-- `SEVERITY_SCORE` lookup: `df["accident_severity"].map(SEVERITY_SCORE)`;
a severity outside the three keys maps to a missing value (`NaN` → `Int64` NA). -/
def severityScore (s : String) : Option Int :=
  if s = "Slight" then some 1
  else if s = "Serious" then some 2
  else if s = "Fatal" then some 3
  else none

/-! ## Date parsing (`pd.to_datetime(..., format="%d-%m-%Y", errors="coerce")`) -/

/-- A calendar date. -/
structure Date where
  year : Nat
  month : Nat
  day : Nat
deriving DecidableEq

/-- Chronological comparison of dates (for valid dates, pandas `Timestamp`
comparison agrees with this lexicographic order). -/
def dateLe (a b : Date) : Bool :=
  a.year < b.year ||
    (a.year = b.year &&
      (a.month < b.month || (a.month = b.month && a.day ≤ b.day)))

/-- Gregorian leap-year test. -/
def leapYear (y : Nat) : Bool :=
  y % 4 = 0 && (y % 100 ≠ 0 || y % 400 = 0)

/-- Number of days in a month of the Gregorian calendar. -/
def daysInMonth (y m : Nat) : Nat :=
  if m = 2 then (if leapYear y then 29 else 28)
  else if m ∈ ([4, 6, 9, 11] : List Nat) then 30
  else 31

/-- Split a character list on a separator character (used instead of
`String.splitOn` so terms reduce in the kernel). -/
def splitSep (sep : Char) : List Char → List Char → List (List Char)
  | [], acc => [acc.reverse]
  | c :: cs, acc => if c = sep then acc.reverse :: splitSep sep cs [] else splitSep sep cs (c :: acc)

/-- Parse a non-empty all-digit field as a natural number. -/
def parseDigits (l : List Char) : Option Nat :=
  if l = [] ∨ ¬ l.all (fun c => 48 ≤ c.toNat && c.toNat ≤ 57) then none
  else some (l.foldl (fun n c => 10 * n + (c.toNat - 48)) 0)

/-- Lower bound of the representable pandas `Timestamp` range (dates at or
before 1677-09-21 overflow and are coerced to `NaT`). -/
def pandasMinDate : Date := ⟨1677, 9, 22⟩

/-- Upper bound of the representable pandas `Timestamp` range. -/
def pandasMaxDate : Date := ⟨2262, 4, 11⟩

/-- `pd.to_datetime(s, format="%d-%m-%Y", errors="coerce")` on one string cell:
three dash-separated numeric fields (`%d` and `%m` take one or two digits,
`%Y` up to four), forming a real calendar date inside the representable
`Timestamp` range; anything else coerces to `NaT` (`none`). -/
def parse_dmy (s : String) : Option Date :=
  match splitSep '-' s.data [] with
  | [df, mf, yf] =>
    if df.length = 0 ∨ 2 < df.length then none
    else if mf.length = 0 ∨ 2 < mf.length then none
    else if yf.length = 0 ∨ 4 < yf.length then none
    else
      match parseDigits df, parseDigits mf, parseDigits yf with
      | some d, some m, some y =>
        if 1 ≤ m ∧ m ≤ 12 ∧ 1 ≤ d ∧ d ≤ daysInMonth y m ∧
            dateLe pandasMinDate ⟨y, m, d⟩ ∧ dateLe ⟨y, m, d⟩ pandasMaxDate then
          some ⟨y, m, d⟩
        else none
      | _, _, _ => none
  | _ => none

/-- `Series.dt.day_name()`: the English weekday name of a date, via Zeller's
congruence (`h = 0` is Saturday). -/
def dayName (dt : Date) : String :=
  let ym := if dt.month ≤ 2 then (dt.year - 1, dt.month + 12) else (dt.year, dt.month)
  let K := ym.1 % 100
  let J := ym.1 / 100
  let h := (dt.day + 13 * (ym.2 + 1) / 5 + K + K / 4 + J / 4 + 5 * J) % 7
  if h = 0 then "Saturday"
  else if h = 1 then "Sunday"
  else if h = 2 then "Monday"
  else if h = 3 then "Tuesday"
  else if h = 4 then "Wednesday"
  else if h = 5 then "Thursday"
  else "Friday"

/-! ## Records and the cleaning pipeline (`load_and_clean`) -/

/-- One raw row as read from the CSV: string-or-`NaN` cells for the fields the
claims touch.  `speed_limit` enters already numerically coerced
(`pd.to_numeric(..., errors="coerce").round().astype("Int64")`); no claim
concerns that numeric coercion itself. -/
structure RawRecord where
  accident_index : Option String
  accident_severity : Option String
  accident_date : Option String
  day_of_week : Option String
  urban_or_rural_area : Option String
  weather_conditions : Option String
  light_conditions : Option String
  road_type : Option String
  vehicle_type : Option String
  local_authority_district : Option String
  speed_limit : Option Int
deriving DecidableEq

/-- One cleaned row (the Canonical Record).  `day_of_week` is the
`pd.Categorical` column: `none` models the `NaN` a value outside `DOW_ORDER`
becomes. -/
structure Record where
  accident_index : Option String
  accident_severity : String
  accident_date : Option Date
  day_name : Option String
  day_of_week : Option String
  urban_or_rural_area : String
  weather_conditions : String
  light_conditions : String
  road_type : String
  vehicle_type : String
  local_authority_district : String
  speed_limit : Option Int
  severity_score : Option Int
deriving DecidableEq

/-- The two-step day-of-week resolution of `load_and_clean` (lines 247–248):
clean the source field; where it is "Unknown", use the derived `day_name`
with `NaN` filled by "Unknown". -/
def resolve_dow (src : Option String) (dname : Option String) : String :=
  let d0 := clean_category src
  if d0 = "Unknown" then dname.getD "Unknown" else d0

/-- `pd.Categorical(values, categories=DOW_ORDER, ordered=True)` on one cell:
a value outside the fixed 7-day category list becomes `NaN` (`none`). -/
def toDowCat (s : String) : Option String :=
  if s ∈ DOW_ORDER then some s else none

/-- The per-row part of `load_and_clean` applied after deduplication: severity
repair, date parsing, `day_name` derivation, day-of-week resolution and
categorical conversion, generic category repair of the filterable categorical
columns, and the severity score. -/
def cleanRow (r : RawRecord) : Record :=
  let sev := fix_severity r.accident_severity
  let date := r.accident_date.bind parse_dmy
  let dname := date.map dayName
  { accident_index := r.accident_index
    accident_severity := sev
    accident_date := date
    day_name := dname
    day_of_week := toDowCat (resolve_dow r.day_of_week dname)
    urban_or_rural_area := clean_category r.urban_or_rural_area
    weather_conditions := clean_category r.weather_conditions
    light_conditions := clean_category r.light_conditions
    road_type := clean_category r.road_type
    vehicle_type := clean_category r.vehicle_type
    local_authority_district := clean_category r.local_authority_district
    speed_limit := r.speed_limit
    severity_score := severityScore sev }

/-- `df.drop_duplicates(subset=["accident_index"], keep="first")`: keep a row
iff its key has not been seen before (pandas treats `NaN` keys as equal, as
does equality on `Option`). -/
def dedupKeepFirst (seen : List (Option String)) : List RawRecord → List RawRecord
  | [] => []
  | r :: rs =>
    if r.accident_index ∈ seen then dedupKeepFirst seen rs
    else r :: dedupKeepFirst (r.accident_index :: seen) rs

/-- `df.duplicated(subset=["accident_index"]).sum()`: the number of rows whose
key already occurred earlier in the table. -/
def dupCount (seen : List (Option String)) : List RawRecord → Nat
  | [] => 0
  | r :: rs =>
    if r.accident_index ∈ seen then dupCount seen rs + 1
    else dupCount (r.accident_index :: seen) rs

/-- Deduplication as the specification states it: keep every row, except that
later rows sharing an earlier row's key are dropped ("retain only the first
occurrence per key, preserving original relative order"). -/
def specFirst : List RawRecord → List RawRecord
  | [] => []
  | r :: rs => r :: (specFirst rs).filter fun q => q.accident_index ≠ r.accident_index

/-- A raw table: whether the `accident_index` column is present, and the rows. -/
structure RawTable where
  hasIndex : Bool
  rows : List RawRecord
deriving DecidableEq

/-- The diagnostics counters of `load_and_clean` that the claims mention
(`cols_raw` and the carriageway-hazards missing rate, a float, are omitted). -/
structure CleanStats where
  rows_raw : Nat
  duplicates_accident_index : Nat
  date_parse_na : Nat
  rows_clean : Nat
deriving DecidableEq

/-- `load_and_clean`: deduplicate by `accident_index` when that column exists
(else report zero duplicates), then clean every row; diagnostics record the raw
row count, duplicate count, date-parse failure count and cleaned row count. -/
def load_and_clean (t : RawTable) : List Record × CleanStats :=
  let deduped := if t.hasIndex then dedupKeepFirst [] t.rows else t.rows
  let dups := if t.hasIndex then dupCount [] t.rows else 0
  let cleaned := deduped.map cleanRow
  (cleaned,
    { rows_raw := t.rows.length
      duplicates_accident_index := dups
      date_parse_na := (cleaned.filter fun r => r.accident_date = none).length
      rows_clean := cleaned.length })

/-! ## Filter engine (`apply_filters`, row-subsetting part) -/

/-- The filter specification collected by the sidebar widgets (the `top_n` and
case selections do not affect row subsetting and are omitted). -/
structure FilterSpec where
  date_range : Option (Date × Date)
  sev : List String
  urban : List String
  speed_sel : List Int
  district : List String
  weather : List String
  light : List String
  road_type : List String
  vehicle_type : List String
deriving DecidableEq

/-- One `if sel: f = f[f[col].isin(sel)]` step of `apply_filters` for a
string-valued column. -/
def catFilter (sel : List String) (fld : Record → String) (f : List Record) : List Record :=
  if sel.isEmpty then f else f.filter fun r => decide (fld r ∈ sel)

/-- The speed-limit step of `apply_filters`: `isin` on a nullable integer
column; a missing value matches nothing. -/
def catFilterOpt (sel : List Int) (fld : Record → Option Int) (f : List Record) : List Record :=
  if sel.isEmpty then f
  else
    f.filter fun r =>
      match fld r with
      | none => false
      | some v => decide (v ∈ sel)

/-- The date-range step: rows whose date lies between the bounds inclusively;
`NaT` (`none`) compares false against both bounds and is dropped. -/
def dateFilter (dr : Option (Date × Date)) (f : List Record) : List Record :=
  match dr with
  | none => f
  | some (a, b) =>
    f.filter fun r =>
      match r.accident_date with
      | none => false
      | some d => dateLe a d && dateLe d b

/-- The row-subsetting part of `apply_filters`: the date filter is disabled
when the date column has no parsed value (`df["accident_date"].min()` is
`NaT`), then each populated dimension subsets the rows in the source's
order. -/
def applyFilters (df : List Record) (s : FilterSpec) : List Record :=
  let dr := if df.all (fun r => r.accident_date.isNone) then none else s.date_range
  let f := df
  let f := dateFilter dr f
  let f := catFilter s.sev (fun r => r.accident_severity) f
  let f := catFilter s.urban (fun r => r.urban_or_rural_area) f
  let f := catFilterOpt s.speed_sel (fun r => r.speed_limit) f
  let f := catFilter s.district (fun r => r.local_authority_district) f
  let f := catFilter s.weather (fun r => r.weather_conditions) f
  let f := catFilter s.light (fun r => r.light_conditions) f
  let f := catFilter s.road_type (fun r => r.road_type) f
  let f := catFilter s.vehicle_type (fun r => r.vehicle_type) f
  f

/-! ## Case-2 aggregator (`sev_counts`) -/

/-- `df_filt["accident_severity"].value_counts().reindex(["Fatal", "Serious",
"Slight"], fill_value=0)`: for each of the three canonical labels in fixed
order, the number of filtered rows carrying it (a label absent from
`value_counts` is filled with 0, which equals its count). -/
def sev_counts (rows : List Record) : List (String × Nat) :=
  ["Fatal", "Serious", "Slight"].map fun s =>
    (s, (rows.filter fun r => r.accident_severity = s).length)

/-! ## Lemmas and claim theorems -/

/-! ### C4: severity repair -/

/-- Claim C4: for every input value, `_fix_severity` returns a value in
{Fatal, Serious, Slight, Unknown}; null maps to "Unknown"; any value whose
trimmed lowercase form is "fetal" maps to "Fatal"; otherwise the
capitalize-first-letter of the lowercased trimmed string is kept when it is one
of the three canonical spellings, and every other value maps to "Unknown". -/
theorem fix_severity_claim :
    (∀ x, fix_severity x ∈ (["Fatal", "Serious", "Slight", "Unknown"] : List String))
    ∧ fix_severity none = "Unknown"
    ∧ fix_severity (some "fetal") = "Fatal"
    ∧ fix_severity (some "FETAL") = "Fatal"
    ∧ fix_severity (some "Fetal ") = "Fatal"
    ∧ fix_severity (some "catastrophic") = "Unknown"
    ∧ (∀ s, lowerStr (stripStr s) = "fetal" → fix_severity (some s) = "Fatal")
    ∧ (∀ s, lowerStr (stripStr s) ≠ "fetal" →
        capitalizeAscii (lowerStr (stripStr s)) ∈ (["Fatal", "Serious", "Slight"] : List String) →
        fix_severity (some s) = capitalizeAscii (lowerStr (stripStr s)))
    ∧ (∀ s, lowerStr (stripStr s) ≠ "fetal" →
        capitalizeAscii (lowerStr (stripStr s)) ∉ (["Fatal", "Serious", "Slight"] : List String) →
        fix_severity (some s) = "Unknown") := by
  refine ⟨?_, by decide, by decide, by decide, by decide, by decide, ?_, ?_, ?_⟩
  · intro x
    cases x with
    | none => simp [fix_severity]
    | some v =>
      simp only [fix_severity]
      split_ifs with h1 h2
      · decide
      · simp only [List.mem_cons, List.not_mem_nil, or_false] at h2 ⊢
        tauto
      · decide
  · intro s h
    simp only [fix_severity]
    rw [if_pos h]
  · intro s h1 h2
    simp only [fix_severity]
    rw [if_neg h1, if_pos h2]
  · intro s h1 h2
    simp only [fix_severity]
    rw [if_neg h1, if_neg h2]

/-- Witness for C4: the general branches of `fix_severity_claim` applied at the
concrete input "SLIGHT". -/
theorem fix_severity_claim_witness : fix_severity (some "SLIGHT") = "Slight" :=
  (fix_severity_claim.2.2.2.2.2.2.2.1 "SLIGHT" (by decide) (by decide)).trans (by decide)

/-! ### C5: generic categorical repair -/

/-- Claim C5: `_clean_category` maps null, strings empty after trimming, the
literal tokens "nan"/"none"/"null" (case-insensitive), and any string containing
"missing" or "out of range" case-insensitively to "Unknown"; every other value
is returned trimmed but otherwise verbatim with case preserved. -/
theorem clean_category_claim :
    clean_category none = "Unknown"
    ∧ (∀ v, stripStr v = "" → clean_category (some v) = "Unknown")
    ∧ (∀ v, lowerStr (stripStr v) ∈ (["nan", "none", "null"] : List String) →
        clean_category (some v) = "Unknown")
    ∧ (∀ v, containsSub (lowerStr (stripStr v)) "missing" = true →
        clean_category (some v) = "Unknown")
    ∧ (∀ v, containsSub (lowerStr (stripStr v)) "out of range" = true →
        clean_category (some v) = "Unknown")
    ∧ (∀ v, stripStr v ≠ "" →
        lowerStr (stripStr v) ∉ (["nan", "none", "null"] : List String) →
        containsSub (lowerStr (stripStr v)) "missing" = false →
        containsSub (lowerStr (stripStr v)) "out of range" = false →
        clean_category (some v) = stripStr v)
    ∧ clean_category (some "") = "Unknown"
    ∧ clean_category (some "NaN") = "Unknown"
    ∧ clean_category (some "null") = "Unknown"
    ∧ clean_category (some "Data missing or out of range") = "Unknown"
    ∧ clean_category (some "DATA MISSING OR OUT OF RANGE") = "Unknown"
    ∧ clean_category (some "Dry") = "Dry"
    ∧ clean_category (some " Dry ") = "Dry" := by
  refine ⟨by decide, ?_, ?_, ?_, ?_, ?_, by decide, by decide, by decide, by decide, by decide,
    by decide, by decide⟩
  · intro v h
    simp only [clean_category]
    rw [if_pos (Or.inl h)]
  · intro v h
    simp only [clean_category]
    rw [if_pos (Or.inr h)]
  · intro v h
    simp only [clean_category]
    by_cases h0 : stripStr v = "" ∨ lowerStr (stripStr v) ∈ (["nan", "none", "null"] : List String)
    · rw [if_pos h0]
    · rw [if_neg h0, if_pos (Or.inl h)]
  · intro v h
    simp only [clean_category]
    by_cases h0 : stripStr v = "" ∨ lowerStr (stripStr v) ∈ (["nan", "none", "null"] : List String)
    · rw [if_pos h0]
    · rw [if_neg h0, if_pos (Or.inr h)]
  · intro v h1 h2 h3 h4
    simp only [clean_category]
    rw [if_neg (by tauto), if_neg (by simp [h3, h4])]

/-- Witness for C5: the pass-through branch of `clean_category_claim` applied at
the concrete input " Wet or damp ". -/
theorem clean_category_claim_witness : clean_category (some " Wet or damp ") = "Wet or damp" :=
  (clean_category_claim.2.2.2.2.2.1 " Wet or damp "
    (by decide) (by decide) (by decide) (by decide)).trans (by decide)

/-! ### Filter-engine membership lemmas -/

/-- Membership in one categorical `isin` filter step: an empty selection keeps
every row, a non-empty one keeps exactly the rows whose field value belongs to
it. -/
theorem mem_catFilter (sel : List String) (fld : Record → String) (f : List Record)
    (r : Record) : r ∈ catFilter sel fld f ↔ r ∈ f ∧ (sel = [] ∨ fld r ∈ sel) := by
  cases sel with
  | nil => simp [catFilter]
  | cons a t => simp [catFilter, List.mem_filter]

/-- Membership in the nullable-integer `isin` filter step: a missing value
matches no non-empty selection. -/
theorem mem_catFilterOpt (sel : List Int) (fld : Record → Option Int) (f : List Record)
    (r : Record) :
    r ∈ catFilterOpt sel fld f ↔ r ∈ f ∧ (sel = [] ∨ ∃ v, fld r = some v ∧ v ∈ sel) := by
  cases sel with
  | nil => simp [catFilterOpt]
  | cons a t =>
    have he : (a :: t).isEmpty = false := rfl
    simp only [catFilterOpt, he, Bool.false_eq_true, if_false, List.mem_filter]
    cases hv : fld r with
    | none => simp [hv]
    | some v => simp [hv]

/-- Membership in the date-range filter step: with an active range only rows
whose parsed date lies inclusively between the bounds survive; rows with an
absent date never do. -/
theorem mem_dateFilter (dr : Option (Date × Date)) (f : List Record) (r : Record) :
    r ∈ dateFilter dr f ↔ r ∈ f ∧
      (∀ p, dr = some p →
        ∃ d, r.accident_date = some d ∧ dateLe p.1 d = true ∧ dateLe d p.2 = true) := by
  cases dr with
  | none => simp [dateFilter]
  | some ab =>
    obtain ⟨a, b⟩ := ab
    simp only [dateFilter, List.mem_filter]
    constructor
    · rintro ⟨hf, hm⟩
      refine ⟨hf, ?_⟩
      rintro p h
      injection h with h'
      subst h'
      cases hv : r.accident_date with
      | none => rw [hv] at hm; simp at hm
      | some d => rw [hv] at hm; simp at hm; exact ⟨d, rfl, hm.1, hm.2⟩
    · rintro ⟨hf, hm⟩
      obtain ⟨d, hd, h1, h2⟩ := hm (a, b) rfl
      refine ⟨hf, ?_⟩
      rw [hd]
      simp [h1, h2]

set_option maxHeartbeats 1000000 in
/-- Full membership characterization of `applyFilters`: a row is returned iff
it is in the table and satisfies every populated dimension (dimensions with an
empty selection impose no constraint; constraints conjoin across dimensions;
the date interval is inclusive). -/
theorem mem_applyFilters (df : List Record) (s : FilterSpec) (r : Record) :
    r ∈ applyFilters df s ↔ r ∈ df
      ∧ (∀ p, (if df.all (fun q => q.accident_date.isNone) then none else s.date_range)
            = some p →
          ∃ d, r.accident_date = some d ∧ dateLe p.1 d = true ∧ dateLe d p.2 = true)
      ∧ (s.sev = [] ∨ r.accident_severity ∈ s.sev)
      ∧ (s.urban = [] ∨ r.urban_or_rural_area ∈ s.urban)
      ∧ (s.speed_sel = [] ∨ ∃ v, r.speed_limit = some v ∧ v ∈ s.speed_sel)
      ∧ (s.district = [] ∨ r.local_authority_district ∈ s.district)
      ∧ (s.weather = [] ∨ r.weather_conditions ∈ s.weather)
      ∧ (s.light = [] ∨ r.light_conditions ∈ s.light)
      ∧ (s.road_type = [] ∨ r.road_type ∈ s.road_type)
      ∧ (s.vehicle_type = [] ∨ r.vehicle_type ∈ s.vehicle_type) := by
  simp only [applyFilters]
  rw [mem_catFilter, mem_catFilter, mem_catFilter, mem_catFilter, mem_catFilter,
    mem_catFilterOpt, mem_catFilter, mem_catFilter, mem_dateFilter]
  simp only [and_assoc]

/-! ### Sample data for concrete checks -/

/-- A cleaned record with a parsed date and Fatal severity. -/
def recFatal : Record :=
  { accident_index := some "A1", accident_severity := "Fatal",
    accident_date := some ⟨2021, 6, 15⟩, day_name := some "Tuesday",
    day_of_week := some "Tuesday", urban_or_rural_area := "Urban",
    weather_conditions := "Fine no high winds", light_conditions := "Daylight",
    road_type := "Single carriageway", vehicle_type := "Car",
    local_authority_district := "Kensington and Chelsea", speed_limit := some 30,
    severity_score := some 3 }

/-- A cleaned record whose date failed to parse (`accident_date` absent). -/
def recUndated : Record :=
  { accident_index := some "A2", accident_severity := "Slight",
    accident_date := none, day_name := none,
    day_of_week := none, urban_or_rural_area := "Rural",
    weather_conditions := "Raining no high winds", light_conditions := "Darkness - lights lit",
    road_type := "Dual carriageway", vehicle_type := "Car",
    local_authority_district := "Westminster", speed_limit := some 60,
    severity_score := some 1 }

/-- The filter specification with every dimension unpopulated. -/
def emptySpec : FilterSpec :=
  { date_range := none, sev := [], urban := [], speed_sel := [], district := [],
    weather := [], light := [], road_type := [], vehicle_type := [] }

/-- A raw row whose severity cell holds the unrecognised value "catastrophic"
and whose other cells are absent. -/
def rawCata : RawRecord :=
  { accident_index := some "C1", accident_severity := some "catastrophic",
    accident_date := none, day_of_week := none, urban_or_rural_area := none,
    weather_conditions := none, light_conditions := none, road_type := none,
    vehicle_type := none, local_authority_district := none, speed_limit := none }

/-! ### C3: filter engine contract -/

/-- Claim C3: the filter engine returns exactly the records satisfying every
populated dimension — an empty selection imposes no constraint (with every
dimension empty the table is returned unchanged), a non-empty selection keeps
only rows whose field value is a member of it, constraints are conjoined
across dimensions, and the date interval includes both endpoints (`dateLe` is
reflexive). -/
theorem applyFilters_claim :
    (∀ df s r, r ∈ applyFilters df s ↔ r ∈ df
      ∧ (∀ p, (if df.all (fun q => q.accident_date.isNone) then none else s.date_range)
            = some p →
          ∃ d, r.accident_date = some d ∧ dateLe p.1 d = true ∧ dateLe d p.2 = true)
      ∧ (s.sev = [] ∨ r.accident_severity ∈ s.sev)
      ∧ (s.urban = [] ∨ r.urban_or_rural_area ∈ s.urban)
      ∧ (s.speed_sel = [] ∨ ∃ v, r.speed_limit = some v ∧ v ∈ s.speed_sel)
      ∧ (s.district = [] ∨ r.local_authority_district ∈ s.district)
      ∧ (s.weather = [] ∨ r.weather_conditions ∈ s.weather)
      ∧ (s.light = [] ∨ r.light_conditions ∈ s.light)
      ∧ (s.road_type = [] ∨ r.road_type ∈ s.road_type)
      ∧ (s.vehicle_type = [] ∨ r.vehicle_type ∈ s.vehicle_type))
    ∧ (∀ d, dateLe d d = true)
    ∧ (∀ df, applyFilters df emptySpec = df) := by
  refine ⟨mem_applyFilters, ?_, ?_⟩
  · intro d
    simp [dateLe]
  · intro df
    simp [applyFilters, emptySpec, dateFilter, catFilter, catFilterOpt]

/-- Witness for C3: the characterization applied at a concrete two-row table
(an empty specification returns the table unchanged, and membership under a
single-severity filter evaluates as the characterization states). -/
theorem applyFilters_claim_witness :
    applyFilters [recFatal, recUndated] emptySpec = [recFatal, recUndated]
    ∧ recFatal ∈ applyFilters [recFatal, recUndated]
        { emptySpec with sev := ["Fatal"] } := by
  constructor
  · exact applyFilters_claim.2.2 [recFatal, recUndated]
  · refine (applyFilters_claim.1 [recFatal, recUndated]
      { emptySpec with sev := ["Fatal"] } recFatal).mpr ?_
    refine ⟨by decide, ?_, by decide, by decide, Or.inl rfl, by decide, by decide,
      by decide, by decide, by decide⟩
    intro p hp
    simp [emptySpec] at hp

/-! ### C6: date filtering skipped when the date column is entirely absent -/

/-- The non-date dimensions of `apply_filters`, per the specification's "the
rows returned are those satisfying the remaining dimensions only". -/
def filtersWithoutDate (df : List Record) (s : FilterSpec) : List Record :=
  let f := df
  let f := catFilter s.sev (fun r => r.accident_severity) f
  let f := catFilter s.urban (fun r => r.urban_or_rural_area) f
  let f := catFilterOpt s.speed_sel (fun r => r.speed_limit) f
  let f := catFilter s.district (fun r => r.local_authority_district) f
  let f := catFilter s.weather (fun r => r.weather_conditions) f
  let f := catFilter s.light (fun r => r.light_conditions) f
  let f := catFilter s.road_type (fun r => r.road_type) f
  let f := catFilter s.vehicle_type (fun r => r.vehicle_type) f
  f

/-- Claim C6: when `accident_date` is absent in every record the filter engine
skips date filtering entirely — whatever date range the specification carries,
the rows returned are exactly those satisfying the remaining dimensions. -/
theorem applyFilters_no_dates (df : List Record) (s : FilterSpec)
    (h : df.all (fun r => r.accident_date.isNone) = true) :
    applyFilters df s = filtersWithoutDate df s := by
  simp only [applyFilters, filtersWithoutDate, h, if_true, dateFilter]

/-- Witness for C6: a one-row all-dates-absent table with an active requested
date range still returns the row matched by the severity dimension. -/
theorem applyFilters_no_dates_witness :
    applyFilters [recUndated]
        { emptySpec with date_range := some (⟨2021, 1, 1⟩, ⟨2021, 12, 31⟩), sev := ["Slight"] }
      = filtersWithoutDate [recUndated]
        { emptySpec with date_range := some (⟨2021, 1, 1⟩, ⟨2021, 12, 31⟩), sev := ["Slight"] }
    ∧ (applyFilters [recUndated]
        { emptySpec with date_range := some (⟨2021, 1, 1⟩, ⟨2021, 12, 31⟩), sev := ["Slight"] }).length
      = 1 :=
  ⟨applyFilters_no_dates _ _ (by decide), by decide⟩

/-! ### C10: records with an absent date are excluded by an active date filter -/

/-- Claim C10: when a date interval is active (the table has at least one
parsed date and the specification carries a range), every record whose
`accident_date` is absent is excluded from the result, for every choice of
interval. -/
theorem applyFilters_excludes_undated (df : List Record) (s : FilterSpec) (p : Date × Date)
    (hdr : s.date_range = some p)
    (hsome : df.all (fun r => r.accident_date.isNone) = false) :
    ∀ r ∈ df, r.accident_date = none → r ∉ applyFilters df s := by
  intro r hr hnone hmem
  have h := (mem_applyFilters df s r).mp hmem
  have hd := h.2.1 p (by simp [hsome, hdr])
  obtain ⟨d, hd', _⟩ := hd
  rw [hnone] at hd'
  simp at hd'

/-- Witness for C10: in a two-row table with one parsed date, the undated row
is excluded under a concrete active date range. -/
theorem applyFilters_excludes_undated_witness :
    recUndated ∉ applyFilters [recFatal, recUndated]
      { emptySpec with date_range := some (⟨2021, 1, 1⟩, ⟨2021, 12, 31⟩) } :=
  applyFilters_excludes_undated [recFatal, recUndated]
    { emptySpec with date_range := some (⟨2021, 1, 1⟩, ⟨2021, 12, 31⟩) }
    (⟨2021, 1, 1⟩, ⟨2021, 12, 31⟩) rfl (by decide) recUndated (by decide) rfl

/-! ### C2: severity-composition aggregator -/

/-- The three counts of `sev_counts` sum to the number of rows whose severity
is one of the three canonical labels (not necessarily the row total: rows with
severity "Unknown" are dropped by the reindexing). -/
theorem sev_counts_sum (rows : List Record) :
    ((sev_counts rows).map Prod.snd).sum
      = (rows.filter fun r =>
          decide (r.accident_severity ∈ (["Fatal", "Serious", "Slight"] : List String))).length := by
  induction rows with
  | nil => rfl
  | cons r rs ih =>
    simp only [sev_counts, List.map_cons, List.map_nil] at ih ⊢
    simp only [List.filter_cons] at ih ⊢
    by_cases hF : r.accident_severity = "Fatal" <;>
      by_cases hS : r.accident_severity = "Serious" <;>
        by_cases hSl : r.accident_severity = "Slight" <;>
          simp_all <;> omega

/-- Claim C2 (amended): for every filtered collection the aggregator returns
exactly 3 rows labelled Fatal, Serious, Slight in that fixed order, absent
severities receiving count 0; the 3 counts sum to the number of filtered rows
whose severity is one of the three canonical labels — which equals the filtered
total exactly when no filtered record carries severity "Unknown". -/
theorem sev_counts_claim :
    (∀ df s, (sev_counts (applyFilters df s)).map Prod.fst = ["Fatal", "Serious", "Slight"])
    ∧ (∀ df s, (sev_counts (applyFilters df s)).length = 3)
    ∧ (∀ df s, ∀ q ∈ sev_counts (applyFilters df s),
        q.2 = ((applyFilters df s).filter fun r => r.accident_severity = q.1).length)
    ∧ (∀ df s, ((sev_counts (applyFilters df s)).map Prod.snd).sum
        = ((applyFilters df s).filter fun r =>
            decide (r.accident_severity ∈ (["Fatal", "Serious", "Slight"] : List String))).length)
    ∧ (∀ df s, ((applyFilters df s).all fun r =>
          decide (r.accident_severity ∈ (["Fatal", "Serious", "Slight"] : List String))) = true →
        ((sev_counts (applyFilters df s)).map Prod.snd).sum = (applyFilters df s).length) := by
  refine ⟨fun df s => rfl, fun df s => rfl, ?_, fun df s => sev_counts_sum _, ?_⟩
  · intro df s q hq
    simp only [sev_counts, List.mem_map, List.mem_cons, List.not_mem_nil, or_false] at hq
    obtain ⟨lab, hlab, rfl⟩ := hq
    rfl
  · intro df s h
    rw [sev_counts_sum]
    congr 1
    exact List.filter_eq_self.mpr (List.all_eq_true.mp h)

/-- Witness for C2: the conditional conjunct of `sev_counts_claim` applied to a
concrete table all of whose records carry canonical severities. -/
theorem sev_counts_claim_witness :
    ((sev_counts (applyFilters [recFatal, recUndated] emptySpec)).map Prod.snd).sum
      = (applyFilters [recFatal, recUndated] emptySpec).length :=
  sev_counts_claim.2.2.2.2 [recFatal, recUndated] emptySpec (by decide)

/-- Counterexample to C2 as stated: a raw row with severity "catastrophic" is
cleaned to severity "Unknown" and passes an all-empty filter specification, so
the filtered collection has 1 row while the three aggregator counts sum to 0. -/
theorem sev_counts_counterexample :
    (applyFilters (load_and_clean ⟨true, [rawCata]⟩).1 emptySpec).length = 1
    ∧ ((sev_counts (applyFilters (load_and_clean ⟨true, [rawCata]⟩).1 emptySpec)).map
        Prod.snd).sum = 0 := by
  constructor
  · decide
  · decide

/-! ### C7: deduplication by accident_index -/

/-- `dedupKeepFirst` with seen-set `s` equals the specification-style
first-occurrence function restricted to keys outside `s`. -/
theorem dedupKeepFirst_eq (s : List (Option String)) (l : List RawRecord) :
    dedupKeepFirst s l = (specFirst l).filter fun q => decide (q.accident_index ∉ s) := by
  induction l generalizing s with
  | nil => rfl
  | cons r rs ih =>
    simp only [dedupKeepFirst, specFirst]
    by_cases h : r.accident_index ∈ s
    · rw [if_pos h, ih s, List.filter_cons, if_neg (by simp [h]), List.filter_filter]
      refine List.filter_congr ?_
      intro q hq
      by_cases h2 : q.accident_index ∈ s
      · simp [h2]
      · have hne : q.accident_index ≠ r.accident_index := fun he => h2 (by rw [he]; exact h)
        simp [h2, hne]
    · rw [if_neg h, ih (r.accident_index :: s), List.filter_cons, if_pos (by simp [h]),
        List.filter_filter]
      congr 1
      refine List.filter_congr ?_
      intro q hq
      by_cases h1 : q.accident_index = r.accident_index <;>
        by_cases h2 : q.accident_index ∈ s <;> simp [h1, h2, List.mem_cons]

/-- With an empty seen-set, `drop_duplicates(keep="first")` is exactly the
specification's first-occurrence retention. -/
theorem dedupKeepFirst_nil_eq (l : List RawRecord) : dedupKeepFirst [] l = specFirst l := by
  rw [dedupKeepFirst_eq]
  refine List.filter_eq_self.mpr ?_
  intro a ha
  simp

/-- The duplicate diagnostic counts exactly the rows removed by
deduplication. -/
theorem dupCount_add_length (s : List (Option String)) (l : List RawRecord) :
    dupCount s l + (dedupKeepFirst s l).length = l.length := by
  induction l generalizing s with
  | nil => rfl
  | cons r rs ih =>
    simp only [dupCount, dedupKeepFirst]
    by_cases h : r.accident_index ∈ s
    · rw [if_pos h, if_pos h]
      have := ih s
      simp only [List.length_cons]
      omega
    · rw [if_neg h, if_neg h]
      have := ih (r.accident_index :: s)
      simp only [List.length_cons]
      omega

/-- First-occurrence retention is order-preserving: the result is a sublist of
the input. -/
theorem specFirst_sublist (l : List RawRecord) : List.Sublist (specFirst l) l := by
  induction l with
  | nil => simp [specFirst]
  | cons r rs ih =>
    simp only [specFirst]
    exact ((List.filter_sublist _).trans ih).cons₂ r

/-- A raw row carrying only an `accident_index` key. -/
def rawKey (k : String) : RawRecord :=
  { accident_index := some k, accident_severity := none, accident_date := none,
    day_of_week := none, urban_or_rural_area := none, weather_conditions := none,
    light_conditions := none, road_type := none, vehicle_type := none,
    local_authority_district := none, speed_limit := none }

/-- Claim C7: with an `accident_index` column the pipeline retains exactly the
first occurrence of each key in original relative order (keys [A, A, B, A]
yield [A, B]) and reports the number of removed rows as the duplicate
diagnostic; without the column nothing is removed and the count is zero. -/
theorem dedup_claim :
    (∀ t : RawTable, t.hasIndex = true →
      (load_and_clean t).1 = (specFirst t.rows).map cleanRow
      ∧ (load_and_clean t).2.duplicates_accident_index + (specFirst t.rows).length
          = t.rows.length)
    ∧ (∀ l : List RawRecord, List.Sublist (specFirst l) l)
    ∧ (∀ t : RawTable, t.hasIndex = false →
      (load_and_clean t).1 = t.rows.map cleanRow
      ∧ (load_and_clean t).2.duplicates_accident_index = 0)
    ∧ (dedupKeepFirst [] [rawKey "A", rawKey "A", rawKey "B", rawKey "A"]).map
        (fun r => r.accident_index) = [some "A", some "B"] := by
  refine ⟨?_, specFirst_sublist, ?_, by decide⟩
  · intro t ht
    constructor
    · simp only [load_and_clean, ht, if_true, dedupKeepFirst_nil_eq]
    · simp only [load_and_clean, ht, if_true]
      have := dupCount_add_length [] t.rows
      rw [dedupKeepFirst_nil_eq] at this
      exact this
  · intro t ht
    constructor
    · simp only [load_and_clean, ht, Bool.false_eq_true, if_false]
    · simp only [load_and_clean, ht, Bool.false_eq_true, if_false]

/-- Witness for C7: `dedup_claim` applied to the concrete four-row [A, A, B, A]
table. -/
theorem dedup_claim_witness :
    (load_and_clean ⟨true, [rawKey "A", rawKey "A", rawKey "B", rawKey "A"]⟩).2.duplicates_accident_index
        + (specFirst [rawKey "A", rawKey "A", rawKey "B", rawKey "A"]).length
      = 4
    ∧ (specFirst [rawKey "A", rawKey "A", rawKey "B", rawKey "A"]).length = 2 :=
  ⟨(dedup_claim.1 ⟨true, [rawKey "A", rawKey "A", rawKey "B", rawKey "A"]⟩ rfl).2, by decide⟩

/-! ### C8: date parsing -/

/-- Claim C8: "31-12-2020" parses to December 31, 2020 under the fixed
day-month-year format; a string in the wrong format such as "2020-12-31" and an
absent cell both yield an explicit absent date (an `Option`, never a sentinel
and never an exception); every parsed date is a real calendar date; and the
diagnostics date-parse-failure counter equals the number of cleaned records
whose date is absent. -/
theorem date_parse_claim :
    parse_dmy "31-12-2020" = some ⟨2020, 12, 31⟩
    ∧ parse_dmy "2020-12-31" = none
    ∧ (none : Option String).bind parse_dmy = none
    ∧ (∀ s d, parse_dmy s = some d →
        1 ≤ d.month ∧ d.month ≤ 12 ∧ 1 ≤ d.day ∧ d.day ≤ daysInMonth d.year d.month)
    ∧ (∀ t : RawTable, (load_and_clean t).2.date_parse_na
        = (((load_and_clean t).1).filter fun r => r.accident_date = none).length) := by
  refine ⟨by decide, by decide, rfl, ?_, fun t => rfl⟩
  intro s d h
  unfold parse_dmy at h
  split at h <;> try exact Option.noConfusion h
  split_ifs at h <;> try exact Option.noConfusion h
  split at h <;> try exact Option.noConfusion h
  split_ifs at h with hc <;> try exact Option.noConfusion h
  injection h with h'
  subst h'
  exact ⟨hc.1, hc.2.1, hc.2.2.1, hc.2.2.2.1⟩

/-- Witness for C8: the calendar-validity conjunct of `date_parse_claim`
applied at the concrete parse of "31-12-2020". -/
theorem date_parse_claim_witness :
    1 ≤ (⟨2020, 12, 31⟩ : Date).month ∧ (⟨2020, 12, 31⟩ : Date).month ≤ 12
    ∧ 1 ≤ (⟨2020, 12, 31⟩ : Date).day
    ∧ (⟨2020, 12, 31⟩ : Date).day ≤ daysInMonth 2020 12 :=
  date_parse_claim.2.2.2.1 "31-12-2020" ⟨2020, 12, 31⟩ (by decide)

/-! ### C1: day-of-week domain -/

/-- A raw row with no day-of-week cell and no date cell. -/
def rawNoDow : RawRecord :=
  { accident_index := some "N1", accident_severity := some "Slight", accident_date := none,
    day_of_week := none, urban_or_rural_area := none, weather_conditions := none,
    light_conditions := none, road_type := none, vehicle_type := none,
    local_authority_district := none, speed_limit := none }

/-- A raw row with no day-of-week cell but a parseable date (31-12-2020, a
Thursday). -/
def rawDated : RawRecord :=
  { accident_index := some "D1", accident_severity := some "Serious",
    accident_date := some "31-12-2020", day_of_week := none, urban_or_rural_area := none,
    weather_conditions := none, light_conditions := none, road_type := none,
    vehicle_type := none, local_authority_district := none, speed_limit := none }

/-- Counterexample to C1 as stated: when the two-step resolution yields
"Unknown" (no source day-of-week, no parsed date), the categorical conversion
`pd.Categorical(..., categories=DOW_ORDER)` stores a null (`NaN`), not the
string "Unknown" — the field is absent, contradicting "never null/absent". -/
theorem dow_counterexample :
    resolve_dow none none = "Unknown"
    ∧ ((load_and_clean ⟨true, [rawNoDow]⟩).1.map fun r => r.day_of_week) = [none]
    ∧ ¬ ((load_and_clean ⟨true, [rawNoDow]⟩).1.map fun r => r.day_of_week)
        = [some "Unknown"] :=
  ⟨by decide, by decide, by decide⟩

/-- Claim C1 (amended): every present `day_of_week` value in the cleaned table
lies in the fixed 7-day domain, and whenever the two-step resolution yields a
value outside that domain (including the fallback "Unknown") the stored value
is absent (null), not the string "Unknown". -/
theorem dow_domain_amended :
    (∀ t : RawTable, ∀ r ∈ (load_and_clean t).1, ∀ v, r.day_of_week = some v → v ∈ DOW_ORDER)
    ∧ (∀ src dname, resolve_dow src dname ∉ DOW_ORDER →
        toDowCat (resolve_dow src dname) = none)
    ∧ (∀ src dname, resolve_dow src dname ∈ DOW_ORDER →
        toDowCat (resolve_dow src dname) = some (resolve_dow src dname)) := by
  refine ⟨?_, ?_, ?_⟩
  · intro t r hr v hv
    simp only [load_and_clean, List.mem_map] at hr
    obtain ⟨q, hq, rfl⟩ := hr
    simp only [cleanRow, toDowCat] at hv
    split_ifs at hv with hmem
    injection hv with h'
    subst h'
    exact hmem
  · intro src dname h
    simp [toDowCat, h]
  · intro src dname h
    simp [toDowCat, h]

/-- Witness for C1: `dow_domain_amended` applied at concrete inputs — a dated
row stores "Thursday" (a member of the 7-day domain), an out-of-domain
resolution such as "monday" is stored as null, and an in-domain resolution is
stored verbatim. -/
theorem dow_domain_amended_witness :
    "Thursday" ∈ DOW_ORDER
    ∧ toDowCat (resolve_dow (some "monday") (some "Tuesday")) = none
    ∧ toDowCat (resolve_dow (some "Tuesday") none) = some (resolve_dow (some "Tuesday") none) :=
  ⟨dow_domain_amended.1 ⟨true, [rawDated]⟩ (cleanRow rawDated) (by decide) "Thursday" (by decide),
   dow_domain_amended.2.1 (some "monday") (some "Tuesday") (by decide),
   dow_domain_amended.2.2 (some "Tuesday") none (by decide)⟩

/-! ### C9: idempotence of the schema normalizer -/

/-- No two adjacent underscores occur in the list. -/
def NoUU (l : List Char) : Prop :=
  List.Chain' (fun a b => ¬(a = '_' ∧ b = '_')) l

/-- Lower-casing an already lower-cased uppercase letter is the identity. -/
theorem lowerAscii_ofNat (n : Nat) (h1 : 65 ≤ n) (h2 : n ≤ 90) :
    lowerAscii (Char.ofNat (n + 32)) = Char.ofNat (n + 32) := by
  interval_cases n <;> decide

/-- A lower-cased uppercase letter is alphanumeric. -/
theorem isAlnum_ofNat (n : Nat) (h1 : 65 ≤ n) (h2 : n ≤ 90) :
    isAlnumAscii (Char.ofNat (n + 32)) = true := by
  interval_cases n <;> decide

/-- A lower-cased uppercase letter is not an underscore. -/
theorem ofNat_ne_und (n : Nat) (h1 : 65 ≤ n) (h2 : n ≤ 90) :
    Char.ofNat (n + 32) ≠ '_' := by
  interval_cases n <;> decide

/-- `lowerAscii` in the uppercase branch. -/
theorem lowerAscii_of_upper (c : Char) (h : 65 ≤ c.toNat ∧ c.toNat ≤ 90) :
    lowerAscii c = Char.ofNat (c.toNat + 32) := by
  unfold lowerAscii
  rw [if_pos h]

/-- `lowerAscii` outside the uppercase branch. -/
theorem lowerAscii_of_not_upper (c : Char) (h : ¬(65 ≤ c.toNat ∧ c.toNat ≤ 90)) :
    lowerAscii c = c := by
  unfold lowerAscii
  rw [if_neg h]

/-- `lowerAscii` is idempotent. -/
theorem lowerAscii_idem (c : Char) : lowerAscii (lowerAscii c) = lowerAscii c := by
  by_cases h : 65 ≤ c.toNat ∧ c.toNat ≤ 90
  · rw [lowerAscii_of_upper c h]
    exact lowerAscii_ofNat c.toNat h.1 h.2
  · rw [lowerAscii_of_not_upper c h, lowerAscii_of_not_upper c h]

/-- `lowerAscii` preserves alphanumericity. -/
theorem lowerAscii_alnum (c : Char) (h : isAlnumAscii c = true) :
    isAlnumAscii (lowerAscii c) = true := by
  by_cases hu : 65 ≤ c.toNat ∧ c.toNat ≤ 90
  · rw [lowerAscii_of_upper c hu]
    exact isAlnum_ofNat c.toNat hu.1 hu.2
  · rw [lowerAscii_of_not_upper c hu]
    exact h

/-- Only an underscore lower-cases to an underscore. -/
theorem lowerAscii_eq_und (c : Char) (h : lowerAscii c = '_') : c = '_' := by
  by_cases hu : 65 ≤ c.toNat ∧ c.toNat ≤ 90
  · rw [lowerAscii_of_upper c hu] at h
    exact absurd h (ofNat_ne_und c.toNat hu.1 hu.2)
  · rw [lowerAscii_of_not_upper c hu] at h
    exact h

/-- Alphanumeric characters are not whitespace. -/
theorem alnum_not_space (c : Char) (h : isAlnumAscii c = true) : isSpaceAscii c = false := by
  rw [Bool.eq_false_iff]
  intro hs
  simp only [isAlnumAscii, Bool.or_eq_true, Bool.and_eq_true, decide_eq_true_eq] at h
  simp only [isSpaceAscii, Bool.or_eq_true, Bool.and_eq_true, decide_eq_true_eq] at hs
  omega

/-- `dropWhile` is the identity when the head fails the predicate. -/
theorem dropWhile_eq_self_head (p : Char → Bool) (l : List Char)
    (h : ∀ a, l.head? = some a → p a = false) : l.dropWhile p = l := by
  cases l with
  | nil => rfl
  | cons c t => exact List.dropWhile_cons_of_neg (by simp [h c rfl])

/-- `dropWhile` is the identity when no element satisfies the predicate. -/
theorem dropWhile_eq_self_all (p : Char → Bool) (l : List Char)
    (h : ∀ c ∈ l, p c = false) : l.dropWhile p = l := by
  refine dropWhile_eq_self_head p l ?_
  intro a ha
  cases l with
  | nil => simp at ha
  | cons c t =>
    rw [List.head?_cons] at ha
    injection ha with h'
    rw [← h']
    exact h c (List.mem_cons_self c t)

/-- The head of a `dropWhile` result fails the predicate. -/
theorem head_dropWhile_false (p : Char → Bool) (l : List Char) (a : Char)
    (h : (l.dropWhile p).head? = some a) : p a = false := by
  have hh := List.head?_dropWhile_not p l
  rw [h] at hh
  exact hh

/-- When nonempty, `dropWhile` preserves the last element. -/
theorem getLast_dropWhile (p : Char → Bool) (l : List Char) (h : l.dropWhile p ≠ []) :
    (l.dropWhile p).getLast? = l.getLast? := by
  induction l with
  | nil => simp at h
  | cons c t ih =>
    by_cases hc : p c
    · rw [List.dropWhile_cons_of_pos hc] at h ⊢
      rw [ih h]
      have ht : t ≠ [] := fun he => h (by rw [he]; rfl)
      cases t with
      | nil => exact absurd rfl ht
      | cons d u => simp
    · rw [List.dropWhile_cons_of_neg hc]

/-- Characters of `stripUnd l` come from `l`. -/
theorem mem_stripUnd (l : List Char) (c : Char) (h : c ∈ stripUnd l) : c ∈ l := by
  unfold stripUnd at h
  rw [List.mem_reverse] at h
  have h1 := (List.dropWhile_suffix _).sublist.subset h
  rw [List.mem_reverse] at h1
  exact (List.dropWhile_suffix _).sublist.subset h1

/-- Adjacent-underscore freedom is preserved by reversal. -/
theorem noUU_reverse (l : List Char) (h : NoUU l) : NoUU l.reverse := by
  unfold NoUU at h ⊢
  rw [List.chain'_reverse]
  refine h.imp ?_
  intro a b hab hx
  exact hab ⟨hx.2, hx.1⟩

/-- Adjacent-underscore freedom is preserved by `dropWhile`. -/
theorem noUU_dropWhile (p : Char → Bool) (l : List Char) (h : NoUU l) :
    NoUU (l.dropWhile p) :=
  h.suffix (List.dropWhile_suffix p)

/-- Adjacent-underscore freedom is preserved by `stripUnd`. -/
theorem noUU_stripUnd (l : List Char) (h : NoUU l) : NoUU (stripUnd l) := by
  unfold stripUnd
  exact noUU_reverse _ (noUU_dropWhile _ _ (noUU_reverse _ (noUU_dropWhile _ _ h)))

/-- `stripUnd` results never start with an underscore. -/
theorem stripUnd_head (l : List Char) (a : Char) (h : (stripUnd l).head? = some a) :
    a ≠ '_' := by
  unfold stripUnd at h
  rw [List.head?_reverse] at h
  have hne : ((l.dropWhile fun c => c = '_').reverse.dropWhile fun c => c = '_') ≠ [] := by
    intro he
    rw [he] at h
    simp at h
  rw [getLast_dropWhile _ _ hne, List.getLast?_reverse] at h
  have := head_dropWhile_false _ _ _ h
  simpa using this

/-- `stripUnd` results never end with an underscore. -/
theorem stripUnd_last (l : List Char) (a : Char) (h : (stripUnd l).getLast? = some a) :
    a ≠ '_' := by
  unfold stripUnd at h
  rw [List.getLast?_reverse] at h
  have := head_dropWhile_false _ _ _ h
  simpa using this

/-- `stripUnd` is the identity on lists without boundary underscores. -/
theorem stripUnd_eq_self (l : List Char) (hh : ∀ a, l.head? = some a → a ≠ '_')
    (hl : ∀ a, l.getLast? = some a → a ≠ '_') : stripUnd l = l := by
  have e1 : (l.dropWhile fun c => c = '_') = l :=
    dropWhile_eq_self_head _ _ (fun a ha => by simpa using hh a ha)
  have e2 : (l.reverse.dropWhile fun c => c = '_') = l.reverse :=
    dropWhile_eq_self_head _ _
      (fun a ha => by simpa using hl a (by rwa [List.head?_reverse] at ha))
  unfold stripUnd
  rw [e1, e2, List.reverse_reverse]

/-- Characters of `collapseRuns` output are alphanumeric or underscore. -/
theorem mem_collapseRuns (l : List Char) : ∀ (b : Bool) (c : Char), c ∈ collapseRuns b l →
    isAlnumAscii c = true ∨ c = '_' := by
  induction l with
  | nil => intro b c h; simp [collapseRuns] at h
  | cons d t ih =>
    intro b c h
    simp only [collapseRuns] at h
    by_cases hd : isAlnumAscii d = true
    · rw [if_pos hd] at h
      rcases List.mem_cons.mp h with rfl | h2
      · exact Or.inl hd
      · exact ih false c h2
    · rw [if_neg hd] at h
      cases b with
      | true =>
        rw [if_pos rfl] at h
        exact ih true c h
      | false =>
        rw [if_neg (by simp)] at h
        rcases List.mem_cons.mp h with rfl | h2
        · exact Or.inr rfl
        · exact ih true c h2

/-- In-run `collapseRuns` output never starts with an underscore. -/
theorem collapseRuns_head_true (l : List Char) :
    ∀ a, (collapseRuns true l).head? = some a → a ≠ '_' := by
  induction l with
  | nil => intro a h; simp [collapseRuns] at h
  | cons d t ih =>
    intro a h
    simp only [collapseRuns] at h
    by_cases hd : isAlnumAscii d = true
    · rw [if_pos hd, List.head?_cons] at h
      injection h with h'
      rw [← h']
      intro he
      rw [he] at hd
      exact absurd hd (by decide)
    · rw [if_neg hd, if_pos trivial] at h
      exact ih a h

/-- `collapseRuns` output has no adjacent underscores. -/
theorem noUU_collapseRuns (l : List Char) : ∀ b : Bool, NoUU (collapseRuns b l) := by
  induction l with
  | nil => intro b; simp [collapseRuns, NoUU]
  | cons d t ih =>
    intro b
    simp only [collapseRuns]
    by_cases hd : isAlnumAscii d = true
    · rw [if_pos hd]
      unfold NoUU
      rw [List.chain'_cons']
      refine ⟨?_, ih false⟩
      intro y hy hp
      rw [hp.1] at hd
      exact absurd hd (by decide)
    · rw [if_neg hd]
      cases b with
      | true =>
        rw [if_pos rfl]
        exact ih true
      | false =>
        rw [if_neg (by simp)]
        unfold NoUU
        rw [List.chain'_cons']
        refine ⟨?_, ih true⟩
        intro y hy hp
        exact collapseRuns_head_true t y (Option.mem_def.mp hy) hp.2

/-- `collapseRuns` is the identity on canonical lists: characters drawn from
the alphanumeric-or-underscore alphabet, no adjacent underscores, and (when
starting inside a run) no leading underscore. -/
theorem collapseRuns_eq_self (l : List Char) :
    ∀ b : Bool, (∀ c ∈ l, isAlnumAscii c = true ∨ c = '_') → NoUU l →
    (b = true → ∀ a, l.head? = some a → a ≠ '_') → collapseRuns b l = l := by
  induction l with
  | nil => intro b _ _ _; rfl
  | cons d t ih =>
    intro b hmem hvu hb
    simp only [collapseRuns]
    rcases hmem d (List.mem_cons_self d t) with hd | hd
    · rw [if_pos hd]
      congr 1
      exact ih false (fun c hc => hmem c (List.mem_cons_of_mem d hc)) hvu.tail
        (fun hf => absurd hf (by decide))
    · subst hd
      rw [if_neg (by decide)]
      cases b with
      | true => exact absurd rfl (hb rfl '_' rfl)
      | false =>
        rw [if_neg (by simp)]
        congr 1
        refine ih true (fun c hc => hmem c (List.mem_cons_of_mem _ hc)) hvu.tail ?_
        intro _ a ha hae
        have hr := (List.chain'_cons'.mp hvu).1 a (Option.mem_def.mpr ha)
        exact hr ⟨rfl, hae⟩

/-- `squashUnd` is the identity on lists with no adjacent underscores. -/
theorem squashUnd_eq_self (l : List Char) :
    ∀ b : Bool, NoUU l → (b = true → ∀ a, l.head? = some a → a ≠ '_') →
    squashUnd b l = l := by
  induction l with
  | nil => intro b _ _; rfl
  | cons d t ih =>
    intro b hvu hb
    simp only [squashUnd]
    by_cases hd : d = '_'
    · subst hd
      cases b with
      | true => exact absurd rfl (hb rfl '_' rfl)
      | false =>
        rw [if_pos rfl, if_neg (by simp)]
        congr 1
        refine ih true hvu.tail ?_
        intro _ a ha hae
        have hr := (List.chain'_cons'.mp hvu).1 a (Option.mem_def.mpr ha)
        exact hr ⟨rfl, hae⟩
    · rw [if_neg hd]
      congr 1
      exact ih false hvu.tail (fun hf => absurd hf (by decide))

/-- Lower-casing preserves adjacent-underscore freedom. -/
theorem noUU_map_lower (l : List Char) (h : NoUU l) : NoUU (l.map lowerAscii) := by
  unfold NoUU at h ⊢
  rw [List.chain'_map]
  refine h.imp ?_
  intro a b hab hx
  exact hab ⟨lowerAscii_eq_und a hx.1, lowerAscii_eq_und b hx.2⟩

/-- Lower-casing a list twice equals lower-casing it once. -/
theorem map_lower_idem (l : List Char) :
    (l.map lowerAscii).map lowerAscii = l.map lowerAscii := by
  rw [List.map_map]
  exact List.map_congr_left fun a _ => lowerAscii_idem a

/-- The underscore-squashing pass of `_snake_case` is redundant: the run
replacement already leaves no underscore runs. -/
theorem snakeList_eq (l : List Char) :
    snakeList l = (stripUnd (collapseRuns false (trimList l))).map lowerAscii := by
  unfold snakeList
  rw [squashUnd_eq_self _ false (noUU_collapseRuns _ false) (fun hf => absurd hf (by decide))]

/-- Characters of `_snake_case` output are alphanumeric or underscore. -/
theorem snakeList_mem (l : List Char) (c : Char) (h : c ∈ snakeList l) :
    isAlnumAscii c = true ∨ c = '_' := by
  rw [snakeList_eq, List.mem_map] at h
  obtain ⟨c0, hc0, rfl⟩ := h
  rcases mem_collapseRuns _ false c0 (mem_stripUnd _ _ hc0) with h1 | h1
  · exact Or.inl (lowerAscii_alnum c0 h1)
  · rw [h1]
    exact Or.inr (by decide)

/-- `_snake_case` output has no adjacent underscores. -/
theorem snakeList_noUU (l : List Char) : NoUU (snakeList l) := by
  rw [snakeList_eq]
  exact noUU_map_lower _ (noUU_stripUnd _ (noUU_collapseRuns _ false))

/-- `_snake_case` output never starts with an underscore. -/
theorem snakeList_head (l : List Char) : ∀ a, (snakeList l).head? = some a → a ≠ '_' := by
  intro a h
  rw [snakeList_eq, List.head?_map] at h
  cases hh : (stripUnd (collapseRuns false (trimList l))).head? with
  | none => rw [hh] at h; exact Option.noConfusion h
  | some a0 =>
    rw [hh] at h
    injection h with h'
    intro hae
    rw [← h'] at hae
    exact stripUnd_head _ a0 hh (lowerAscii_eq_und a0 hae)

/-- `_snake_case` output never ends with an underscore. -/
theorem snakeList_last (l : List Char) : ∀ a, (snakeList l).getLast? = some a → a ≠ '_' := by
  intro a h
  rw [snakeList_eq, List.getLast?_map] at h
  cases hh : (stripUnd (collapseRuns false (trimList l))).getLast? with
  | none => rw [hh] at h; exact Option.noConfusion h
  | some a0 =>
    rw [hh] at h
    injection h with h'
    intro hae
    rw [← h'] at hae
    exact stripUnd_last _ a0 hh (lowerAscii_eq_und a0 hae)

/-- `_snake_case` output contains no whitespace. -/
theorem snakeList_no_space (l : List Char) (c : Char) (h : c ∈ snakeList l) :
    isSpaceAscii c = false := by
  rcases snakeList_mem l c h with h1 | h1
  · exact alnum_not_space c h1
  · rw [h1]
    decide

/-- `trimList` is the identity on whitespace-free lists. -/
theorem trimList_eq_self (l : List Char) (h : ∀ c ∈ l, isSpaceAscii c = false) :
    trimList l = l := by
  have e1 : l.dropWhile isSpaceAscii = l := dropWhile_eq_self_all _ _ h
  have e2 : l.reverse.dropWhile isSpaceAscii = l.reverse :=
    dropWhile_eq_self_all _ _ (fun c hc => h c (List.mem_reverse.mp hc))
  unfold trimList
  rw [e1, e2, List.reverse_reverse]

/-- The normalizer on character lists is idempotent. -/
theorem snakeList_idem (l : List Char) : snakeList (snakeList l) = snakeList l := by
  have h1 : trimList (snakeList l) = snakeList l :=
    trimList_eq_self _ (fun c hc => snakeList_no_space l c hc)
  have h2 : collapseRuns false (snakeList l) = snakeList l :=
    collapseRuns_eq_self _ false (fun c hc => snakeList_mem l c hc) (snakeList_noUU l)
      (fun hf => absurd hf (by decide))
  rw [snakeList_eq (snakeList l), h1, h2,
    stripUnd_eq_self _ (snakeList_head l) (snakeList_last l), snakeList_eq l]
  exact map_lower_idem _

/-- Claim C9: the schema normalizer is idempotent — applying `_snake_case` to
its own output returns that output unchanged, for every header string. -/
theorem snake_case_idem : ∀ s : String, snake_case (snake_case s) = snake_case s := by
  intro s
  unfold snake_case
  exact congrArg String.mk (snakeList_idem s.data)
